import Mathlib

/-
  A verification development for the xroute HTTP router.

  The Go sources are shallowly embedded: Go structs become Lean structures,
  mutation becomes explicit state passing, panics become `Except.error`, and
  Go maps become insertion-ordered association lists (Go map iteration order
  is unspecified; the association-list order is one determinization, and no
  theorem below depends on a particular iteration order beyond that).
  Opaque runtime values (handlers, writers, loggers, trees) are represented
  by numeric tokens: only their identity matters to the properties proved.
-/

namespace XRoute

/-! ## Middleware model (middleware.go) -/

/-- Duplication policies, middleware.go lines 12-16. -/
def DUPLICATION_OVERRIDE : Nat := 0

def DUPLICATION_ABORT : Nat := 1

def DUPLICATION_SKIP : Nat := 2

/-- middleware.go lines 26-31.  The Go `Handler` field is an opaque closure;
it is represented by a numeric token, which is all the stack logic observes. -/
structure Middleware where
  name : String
  handler : Nat
  before : List String
  after : List String
deriving DecidableEq, Repr

/-- middleware.go lines 50-58.  `ByName` is a Go map; it is embedded as an
insertion-ordered association list.  The `mu` mutex has no pure counterpart. -/
structure MiddlewaresStack where
  name : String
  byName : List (String × Middleware)
  items : List Middleware
  anonymous : List Middleware
  acceptAnonymous : Bool
  len : Nat
deriving DecidableEq, Repr

/-- middleware.go lines 60-66 (`NewMiddlewaresStack`). -/
def newMiddlewaresStack (name : String) (acceptAnonymous : Bool) : MiddlewaresStack :=
  { name := name, byName := [], items := [], anonymous := [],
    acceptAnonymous := acceptAnonymous, len := 0 }

/-- middleware.go lines 68-89 (`Copy`).  The Go code allocates a fresh map and
fresh slices holding the same (pointer) elements; with value semantics the
copy is the identical value. -/
def MiddlewaresStack.copy (s : MiddlewaresStack) : MiddlewaresStack :=
  { name := s.name, byName := s.byName, items := s.items,
    anonymous := s.anonymous, acceptAnonymous := s.acceptAnonymous, len := s.len }

/-- Membership of a single name, the body of the `Has` loop
(middleware.go lines 106-113). -/
def MiddlewaresStack.has1 (s : MiddlewaresStack) (n : String) : Bool :=
  (s.byName.lookup n).isSome

/-- middleware.go lines 106-113 (`Has`). -/
def MiddlewaresStack.hasAll (s : MiddlewaresStack) (names : List String) : Bool :=
  names.all s.has1

/-- Go map assignment `m[k] = v`: replace the binding if the key is present,
otherwise add a new binding (appended, to keep insertion order). -/
def mapSet (m : List (String × Middleware)) (k : String) (v : Middleware) :
    List (String × Middleware) :=
  match m with
  | [] => [(k, v)]
  | (k', v') :: rest => if k' = k then (k, v) :: rest else (k', v') :: mapSet rest k v

/-- The panics that can abort stack registration or `Build` (all raised with
`panic(fmt.Errorf(...))` in middleware.go). -/
inductive StackError
  | emptyName (stackName : String) (index : Nat)
  | duplicated (stackName : String) (mdName : String)
  | invalidOption (opt : Nat)
  | dependencyMissing (stackName : String) (missing : List (String × List String))
  | sortError (stackName : String)
deriving DecidableEq, Repr

/-- The `for i, md := range items` loop of `Add` (middleware.go lines 135-158).
`i` is the loop index used in the empty-name panic message. -/
def MiddlewaresStack.addLoop :
    MiddlewaresStack → List Middleware → Nat → Nat → Except StackError MiddlewaresStack
  | s, [], _, _ => .ok s
  | s, md :: rest, opt, i =>
    if md.name = "" then
      if s.acceptAnonymous then
        MiddlewaresStack.addLoop
          { s with anonymous := s.anonymous ++ [md], len := s.len + 1 } rest opt (i + 1)
      else .error (.emptyName s.name i)
    else
      if s.has1 md.name then
        if opt = DUPLICATION_ABORT then .error (.duplicated s.name md.name)
        else if opt = DUPLICATION_SKIP then MiddlewaresStack.addLoop s rest opt (i + 1)
        else if opt = DUPLICATION_OVERRIDE then
          MiddlewaresStack.addLoop
            { s with byName := mapSet s.byName md.name md, len := s.len + 1 } rest opt (i + 1)
        else .error (.invalidOption opt)
      else
        MiddlewaresStack.addLoop
          { s with byName := mapSet s.byName md.name md, len := s.len + 1 } rest opt (i + 1)

/-- middleware.go lines 130-160 (`Add`). -/
def MiddlewaresStack.add (s : MiddlewaresStack) (items : List Middleware) (opt : Nat) :
    Except StackError MiddlewaresStack :=
  s.addLoop items opt 0

/-- The `Before`/`After` references of `md` that are not registered in the
stack, in the order the `Build` loops visit them (middleware.go lines 178-198). -/
def MiddlewaresStack.missingRefs (s : MiddlewaresStack) (md : Middleware) : List String :=
  md.before.filter (fun dst => ¬ s.has1 dst) ++ md.after.filter (fun src => ¬ s.has1 src)

/-- The `notFound` map accumulated by `Build` (middleware.go lines 170-199),
grouped per middleware name.  `make([]string, 1)` seeds each entry with one
empty string before the real names are appended, reproduced here verbatim. -/
def MiddlewaresStack.notFoundDeps (s : MiddlewaresStack) : List (String × List String) :=
  (s.byName.filter (fun p => decide (s.missingRefs p.2 ≠ []))).map
    (fun p => (p.2.name, "" :: s.missingRefs p.2))

/-- The nodes added to the topsort graph (middleware.go lines 174-176):
the `Name` of every registered middleware. -/
def MiddlewaresStack.graphNodes (s : MiddlewaresStack) : List String :=
  s.byName.map (fun p => p.2.name)

/-- The edges added to the topsort graph (middleware.go lines 178-198):
`(md.Name, to)` for each registered `to` in `md.Before`, and
`(from, md.Name)` for each registered `from` in `md.After`.
An edge `(u, v)` constrains `u` to appear before `v` in the sorted order. -/
def MiddlewaresStack.graphEdges (s : MiddlewaresStack) : List (String × String) :=
  s.byName.flatMap (fun p =>
    (p.2.before.filter s.has1).map (fun dst => (p.2.name, dst)) ++
    (p.2.after.filter s.has1).map (fun src => (src, p.2.name)))

/-! ### Depth-first topological sort

Modelled from the spec: `Build` delegates the ordering to the external
`topsort` graph library (not part of this repository); per the spec,
"Build a directed graph on named middlewares ... Depth-first topological
order yields the sequence", and "Cycles are fatal".  The model below is a
standard depth-first topological sort: a node is emitted after all of its
successors, producing a list in which every edge goes from an earlier to a
later element; meeting a node on the current DFS stack reports a cycle. -/

inductive SortErr
  | cycle
  | fuelOut
deriving DecidableEq, Repr

/-- Successors of `u` in the edge list. -/
def adjOf (edges : List (String × String)) (u : String) : List String :=
  (edges.filter (fun e => e.1 = u)).map (fun e => e.2)

mutual

/-- Visit one node: skip if finished (`out`), report a cycle if it is on the
current DFS stack (`grey`), otherwise explore its successors and emit it.
The emitted list has the most recently finished node first, so every edge
`(u, v)` has `u` to the left of `v`. -/
def dfsVisit (edges : List (String × String)) (fuel : Nat) (grey : List String)
    (n : String) (out : List String) : Except SortErr (List String) :=
  if n ∈ out then .ok out
  else if n ∈ grey then .error .cycle
  else
    match fuel with
    | 0 => .error .fuelOut
    | f + 1 =>
      match dfsAll edges f (n :: grey) (adjOf edges n) out with
      | .error e => .error e
      | .ok out2 => .ok (n :: out2)
termination_by (fuel, 0)

/-- Visit a list of nodes in order. -/
def dfsAll (edges : List (String × String)) (fuel : Nat) (grey : List String)
    (todo : List String) (out : List String) : Except SortErr (List String) :=
  match todo with
  | [] => .ok out
  | v :: vs =>
    match dfsVisit edges fuel grey v out with
    | .error e => .error e
    | .ok out2 => dfsAll edges fuel grey vs out2
termination_by (fuel, todo.length + 1)

end

/-- Modelled from the spec: the `DepthFirst` entry point of the external
topsort library, run over all nodes.  The fuel bound `nodes.length + 1`
covers every DFS stack that can arise when all edges stay inside `nodes`. -/
def depthFirst (nodes : List String) (edges : List (String × String)) :
    Except SortErr (List String) :=
  dfsAll edges (nodes.length + 1) [] nodes []

/-- The body of `Build` past the `len(stack.Items) == stack.Len` guard
(middleware.go lines 167-227): collect unresolved references (fatal),
topologically sort the named middlewares (cycles fatal), then materialize
`Items` as the sorted named middlewares followed by the anonymous ones. -/
def MiddlewaresStack.buildFull (s : MiddlewaresStack) : Except StackError MiddlewaresStack :=
  if s.notFoundDeps ≠ [] then .error (.dependencyMissing s.name s.notFoundDeps)
  else
    match depthFirst s.graphNodes s.graphEdges with
    | .error _ => .error (.sortError s.name)
    | .ok names =>
      .ok { s with items := names.filterMap (fun n => s.byName.lookup n) ++ s.anonymous }

/-- middleware.go lines 162-228 (`Build`): skip the rebuild when
`len(stack.Items) == stack.Len`. -/
def MiddlewaresStack.build (s : MiddlewaresStack) : Except StackError MiddlewaresStack :=
  if s.items.length = s.len then .ok s else s.buildFull

/-- Index of the first occurrence of a name in a list (length if absent);
used to state ordering facts about the sorted sequence. -/
def idxIn : List String → String → Nat
  | [], _ => 0
  | x :: xs, y => if x = y then 0 else idxIn xs y + 1

/-- Stacks reachable through the public registration API: a fresh stack
followed by any sequence of successful `Add` calls.  (`AddInterface` and
`Override` are wrappers around `Add`.) -/
inductive ReachableStack : MiddlewaresStack → Prop
  | new (name : String) (acceptAnonymous : Bool) :
      ReachableStack (newMiddlewaresStack name acceptAnonymous)
  | add (s : MiddlewaresStack) (items : List Middleware) (opt : Nat)
      (s' : MiddlewaresStack) :
      ReachableStack s → s.add items opt = .ok s' → ReachableStack s'

/-! ## ChainHandler model (part_001, `ChainHandler`)

The chain state holds the mutable fields of the `ChainHandler` struct that
`Next`, `Pass` and the middlewares touch: `Index`, `Writer`, `request`,
`Context` and the re-entry flag `next`.  The `Middlewares` and `Endpoint`
fields are taken as fixed parameters of the run.  Writers, logical contexts
and routing contexts are opaque pointers, embedded as tokens.  A middleware
handler receives the chain itself in Go (`func(chain *ChainHandler)`), so it
is embedded as an arbitrary state transformer. -/

/-- An `*http.Request`: an opaque identity plus the attached
`context.Context` token (`r.WithContext` replaces only the latter). -/
structure CRequest where
  core : Nat
  ctx : Nat
deriving DecidableEq, Repr

/-- The chain's `Writer` field.  A `ResponseWriterWithStatus` supplied to
`Next` is stored as is; a plain `http.ResponseWriter` is stored wrapped by
`ResponseWriter(...)` (a helper outside the analysed sources), which is what
the `wrapped` constructor records. -/
inductive CWriter
  | given (id : Nat)
  | wrapped (id : Nat)
deriving DecidableEq, Repr

/-- The mutable fields of `ChainHandler` (part_001 lines 24-33). -/
structure ChainState where
  index : Nat
  writer : CWriter
  request : CRequest
  context : Nat
  nextFlag : Bool
deriving DecidableEq, Repr

/-- The `ChainRequestSetter`s registered on a routing context, looked up by
the context token.  They receive the chain itself (request.go lines 9-11),
so each is an arbitrary transformer of the chain state.  Plain
`RequestSetter`s receive only the request and cannot touch the chain state,
so they have no footprint in this model. -/
def ChainSetters : Type := Nat → List (ChainState → CRequest → ChainState)

/-- part_001 lines 52-62 (`SetRequest`): store the request, then run the
context's chain request setters. -/
def setRequest (settersOf : ChainSetters) (st : ChainState) (r : CRequest) : ChainState :=
  let st1 := { st with request := r }
  (settersOf st1.context).foldl (fun s f => f s r) st1

/-- The values `Next` accepts, in the order of its type switch
(part_001 lines 77-90). -/
inductive NextValue
  | request (r : CRequest)
  | writerWithStatus (id : Nat)
  | writer (id : Nat)
  | routeContext (ctx : Nat)
  | goContext (g : Nat)
deriving DecidableEq, Repr

/-- One arm of the type switch in `Next` (part_001 lines 77-90). -/
def applyValue (settersOf : ChainSetters) (st : ChainState) (v : NextValue) : ChainState :=
  match v with
  | .request r => setRequest settersOf st r
  | .writerWithStatus i => { st with writer := .given i }
  | .writer i => { st with writer := .wrapped i }
  | .routeContext c => { st with context := c }
  | .goContext g => setRequest settersOf st { st.request with ctx := g }

/-- part_001 lines 68-70 (`Pass`). -/
def chainPass (st : ChainState) : ChainState :=
  { st with nextFlag := true }

/-- Observable execution events of the chain loop: which middleware slot ran,
and whether the endpoint ran.  (A pure observer; the Go code has no trace.) -/
inductive ChainEvent
  | slot (i : Nat)
  | endpoint
deriving DecidableEq, Repr

/-- One iteration of the `for` loop of `Next` (part_001 lines 95-102): run
`mws[Index]` after incrementing `Index`, or the endpoint when
`Index = len(mws)` (the endpoint only sees `(writer, request, context)` and
cannot mutate the chain), or nothing when `Index` is already past the end. -/
def chainStep (mws : List (ChainState → ChainState)) (st : ChainState) :
    ChainState × List ChainEvent :=
  if h : st.index < mws.length then
    ((mws.get ⟨st.index, h⟩) { st with index := st.index + 1 }, [.slot st.index])
  else if st.index = mws.length then
    ({ st with index := st.index + 1 }, [.endpoint])
  else (st, [])

/-- The `for` loop of `Next` (part_001 lines 94-108), with a fuel bound
because arbitrary middlewares may keep requesting re-entry: run one
iteration, then re-enter if the `next` flag is set, clearing it first
(part_001 lines 103-107). -/
def chainLoop (mws : List (ChainState → ChainState)) :
    Nat → ChainState → Option (ChainState × List ChainEvent)
  | 0, _ => none
  | f + 1, st =>
    if (chainStep mws st).1.nextFlag then
      match chainLoop mws f { (chainStep mws st).1 with nextFlag := false } with
      | none => none
      | some (st2, tr) => some (st2, (chainStep mws st).2 ++ tr)
    else some ((chainStep mws st).1, (chainStep mws st).2)

/-- part_001 lines 72-111 (`Next`): snapshot `(Writer, request, Context)`,
install the supplied overrides, snapshot the `next` flag (`oldNext`), run the
loop, then restore `next` to `oldNext` (line 110) and the triple to the entry
snapshot (the deferred assignment of lines 74-76). -/
def chainNext (settersOf : ChainSetters) (mws : List (ChainState → ChainState))
    (fuel : Nat) (values : List NextValue) (st : ChainState) :
    Option (ChainState × List ChainEvent) :=
  match chainLoop mws fuel (values.foldl (applyValue settersOf) st) with
  | none => none
  | some (st2, tr) =>
    some ({ st2 with
        nextFlag := (values.foldl (applyValue settersOf) st).nextFlag,
        writer := st.writer, request := st.request, context := st.context }, tr)

/-- A middleware that calls `Pass()` and returns, leaving everything else
untouched. -/
def passMiddleware : ChainState → ChainState := fun s => { s with nextFlag := true }

/-- Does installing this value replace the request (and hence run the
context's request setters)?  True for the `*http.Request` and
`context.Context` arms of the type switch. -/
def NextValue.replacesRequest : NextValue → Bool
  | .request _ => true
  | .goContext _ => true
  | _ => false

/-! ## RouteContext model (part_000, `RouteContext`) -/

/-- part_001 `OrderedMap` (second file in part_001): only the freshly
allocated value matters to the claims below; `NewOrderedMap` allocates empty
`Keys`, `Values`, `Map` and zero `Size`. -/
structure OrderedMapM where
  keys : List String
  values : List String
  map : List (String × List String)
  size : Nat
deriving DecidableEq, Repr

/-- part_001 lines 184-186 (`NewOrderedMap`). -/
def newOrderedMap : OrderedMapM := ⟨[], [], [], 0⟩

/-- part_000 lines 78-117 (`RouteContext`).  Interface-typed and pointer
fields (`Routes`, `DefaultValueKey`, `Handler`, `Log`, the router stack, the
setter maps and the `Data` bag) are embedded as tokens or token containers:
the claims below only compare them for equality. -/
structure RouteContextM where
  routes : Option Nat
  routePath : String
  routeMethod : String
  routePatterns : List String
  urlParams : OrderedMapM
  routePattern : String
  routeParamsKeys : List String
  routeParamsValues : List String
  methodNotAllowed : Bool
  defaultValueKey : Option Nat
  data : List (Nat × Nat)
  requestSetters : List Nat
  chainRequestSetters : List Nat
  handler : Option Nat
  routerStack : List Nat
  log : Option Nat
  apiExt : String
deriving DecidableEq, Repr

/-- part_000 lines 154-168 (`Reset`): the fields assigned by `Reset`, and
only those, return to their initial values (truncating a slice with `[:0]`
and allocating a fresh map both yield the empty value). -/
def RouteContextM.reset (x : RouteContextM) : RouteContextM :=
  { x with
    routes := none
    routePath := ""
    routeMethod := ""
    routePatterns := []
    urlParams := newOrderedMap
    routePattern := ""
    routeParamsKeys := []
    routeParamsValues := []
    methodNotAllowed := false
    data := []
    requestSetters := []
    chainRequestSetters := [] }

/-- part_000 lines 120-124 (`NewRouteContext`): the zero `RouteContext`
followed by `Reset`. -/
def newRouteContext : RouteContextM :=
  RouteContextM.reset
    { routes := none, routePath := "", routeMethod := "", routePatterns := [],
      urlParams := newOrderedMap, routePattern := "", routeParamsKeys := [],
      routeParamsValues := [], methodNotAllowed := false, defaultValueKey := none,
      data := [], requestSetters := [], chainRequestSetters := [], handler := none,
      routerStack := [], log := none, apiExt := "" }

/-! ## Dispatch model (part_002, `Mux.routeHTTP`)

The radix tree (`node`, `FindRoute`, `methodMap`) lives in a source file that
is not among the analysed sources, so the tree search is taken as an
arbitrary parameter: a function from (routing context, method bit, path) to
the updated context — `FindRoute` may set the `methodNotAllowed` hint — and
an optional handler.  Paths are lists of characters, matching Go's byte-index
string operations on ASCII route paths.  The dispatch model only reads and
writes the `RouteContext` fields `routeHTTP` itself uses. -/

/-- The `RouteContext` fields read or written by `routeHTTP`. -/
structure DispatchCtx where
  routePath : List Char
  routeMethod : List Char
  methodNotAllowed : Bool
  apiExt : List Char
deriving DecidableEq, Repr

/-- An abstract tree search standing for `mx.tree.FindRoute`: it returns the
mutated routing context and the found handler, if any.  The returned node and
endpoints of the Go signature are dropped; `routeHTTP`'s miss/hit logic only
uses the handler (the hit sub-branches are collapsed, see `Dispatched`). -/
def FindRouteFn (H : Type) : Type :=
  DispatchCtx → Nat → List Char → DispatchCtx × Option H

/-- Modelled from the spec: §3 MethodMask — a bitmask over the nine HTTP
methods plus `ALL` and `STUB` pseudo-bits; `methodMap` maps method names to
bits (the table lives in the absent tree source file). -/
def methodBits : List (List Char × Nat) :=
  [("CONNECT".data, 1), ("DELETE".data, 2), ("GET".data, 4), ("HEAD".data, 8),
   ("OPTIONS".data, 16), ("PATCH".data, 32), ("POST".data, 64), ("PUT".data, 128),
   ("TRACE".data, 256)]

/-- Modelled from the spec: lookup of a method's bit, `none` for a method
chi does not support. -/
def methodMap (m : List Char) : Option Nat :=
  methodBits.lookup m

/-- Is `sub` the sublist of `hay` starting at index `i`? -/
def isSubAt (hay sub : List Char) (i : Nat) : Bool :=
  decide ((hay.drop i).take sub.length = sub)

/-- `strings.LastIndex`: the largest index where `sub` occurs in `hay`
(`none` for Go's `-1`). -/
def lastIndex (hay sub : List Char) : Option Nat :=
  ((List.range (hay.length + 1)).filter (isSubAt hay sub)).getLast?

/-- Does `hay` end with `sub`?  (Used only to state claims; the source uses
`strings.LastIndex`, not a suffix test.) -/
def endsWith (hay sub : List Char) : Bool :=
  decide ((hay.drop (hay.length - sub.length)) = sub ∧ sub.length ≤ hay.length)

/-- What `routeHTTP` ended up invoking.  A hit's four sub-branches
(mount handler, handler-interceptor chain, endpoint variants, direct) are
collapsed into `hit`/`apiHit` carrying the found handler: the claims below
only concern which handler the search produced and the miss handlers. -/
inductive Dispatched (H : Type)
  | methodUnknown
  | hit (h : H)
  | apiHit (ext : List Char) (h : H)
  | methodNotAllowed
  | notFound
deriving DecidableEq, Repr

/-- Result of the dispatch model: the final routing context, what was
invoked, and the trace of API-extension retries that were attempted, each as
(extension, rewritten path).  The trace is a pure observer of the search
calls the loop makes. -/
structure DispatchResult (H : Type) where
  rctx : DispatchCtx
  outcome : Dispatched H
  attempts : List (List Char × List Char)
deriving DecidableEq, Repr

/-- The API-extension retry loop of `routeHTTP` (part_002 lines 828-843):
for each configured extension, if `"." + ext` occurs in the path
(`strings.LastIndex`), rewrite the path to the prefix before the last
occurrence followed by `"/." + ext` and search again; on a hit set
`rctx.ApiExt = ext` and dispatch.  The rewritten path replaces `routePath`
even when the retry misses, carrying over to later extensions. -/
def apiRetryLoop (fr : FindRouteFn H) (method : Nat) :
    List (List Char) → DispatchCtx → List Char →
    DispatchCtx × List (List Char × List Char) × Option (List Char × H)
  | [], rctx, _ => (rctx, [], none)
  | ext :: rest, rctx, routePath =>
    match lastIndex routePath ('.' :: ext) with
    | none => apiRetryLoop fr method rest rctx routePath
    | some pos =>
      match fr rctx method (routePath.take pos ++ '/' :: '.' :: ext) with
      | (rctx1, some h) =>
        ({ rctx1 with apiExt := ext },
         [(ext, routePath.take pos ++ '/' :: '.' :: ext)], some (ext, h))
      | (rctx1, none) =>
        ((apiRetryLoop fr method rest rctx1 (routePath.take pos ++ '/' :: '.' :: ext)).1,
         (ext, routePath.take pos ++ '/' :: '.' :: ext) ::
           (apiRetryLoop fr method rest rctx1 (routePath.take pos ++ '/' :: '.' :: ext)).2.1,
         (apiRetryLoop fr method rest rctx1 (routePath.take pos ++ '/' :: '.' :: ext)).2.2)

/-- The routing path derivation at the top of `routeHTTP`
(part_002 lines 788-796): prefer `rctx.RoutePath`, else the raw URL path,
else the URL path. -/
def effectivePath (rctxPath reqRawPath reqPath : List Char) : List Char :=
  if rctxPath ≠ [] then rctxPath
  else if reqRawPath ≠ [] then reqRawPath
  else reqPath

/-- The method derivation of `routeHTTP` (part_002 lines 799-801): fill
`rctx.RouteMethod` from the request when empty. -/
def effectiveCtx (rctx0 : DispatchCtx) (reqMethod : List Char) : DispatchCtx :=
  if rctx0.routeMethod = [] then { rctx0 with routeMethod := reqMethod } else rctx0

/-- part_002 lines 787-850 (`routeHTTP`): derive the routing path and method,
reject unsupported methods via the MethodNotAllowed handler, search the tree,
retry with API-extension rewrites on a miss, and finally fall back to
MethodNotAllowed or NotFound depending on the `methodNotAllowed` hint left by
the searches. -/
def routeHTTPM (fr : FindRouteFn H) (apiExtensions : List (List Char))
    (reqMethod reqRawPath reqPath : List Char) (rctx0 : DispatchCtx) :
    DispatchResult H :=
  match methodMap (effectiveCtx rctx0 reqMethod).routeMethod with
  | none => ⟨effectiveCtx rctx0 reqMethod, .methodUnknown, []⟩
  | some method =>
    match fr (effectiveCtx rctx0 reqMethod) method
        (effectivePath rctx0.routePath reqRawPath reqPath) with
    | (rctx1, some h) => ⟨rctx1, .hit h, []⟩
    | (rctx1, none) =>
      match apiRetryLoop fr method apiExtensions rctx1
          (effectivePath rctx0.routePath reqRawPath reqPath) with
      | (rctx2, attempts, some (ext, h)) => ⟨rctx2, .apiHit ext h, attempts⟩
      | (rctx2, attempts, none) =>
        ⟨rctx2, if rctx2.methodNotAllowed then .methodNotAllowed else .notFound,
         attempts⟩

/-- A response writer as the miss handlers observe it: the status set by
`WriteHeader` and the chunks passed to `Write`. -/
structure WriterState where
  status : Option Nat
  wrote : List (List Char)
deriving DecidableEq, Repr

/-- part_002 lines 884-887: the default method-not-allowed handler,
`w.WriteHeader(405); w.Write(nil)` (a nil write appends an empty chunk). -/
def methodNotAllowedHandlerM (w : WriterState) : WriterState :=
  { w with status := some 405, wrote := w.wrote ++ [[]] }

/-! ## Mux registration model (part_002, `With` and `handle`)

Only the registration-time behaviour the claims mention is embedded: which
middleware stacks an inline child starts from, and how `handle` wraps a
handler before inserting it.  The shared radix tree is a token; `handle`
is modelled as returning the list of (method, pattern, handler) insertions
it performs on that tree. -/

/-- A handler value as the registration path sees it: either an opaque
endpoint or a `Chain(mws).Handler(h)` wrapper (part_001 lines 15-20; an
empty chain returns the endpoint unwrapped). -/
inductive HandlerV
  | base (id : Nat)
  | chained (mws : List Middleware) (h : HandlerV)
deriving DecidableEq, Repr

/-- part_001 lines 15-20 (`Middlewares.Handler`). -/
def middlewaresHandler (mws : List Middleware) (h : HandlerV) : HandlerV :=
  if mws = [] then h else .chained mws h

/-- The `Mux` fields involved in `With`/`handle` (part_002 lines 30-82).
The `parent` back-pointer and the memoized `handler` are not observable by
the claims below and are omitted. -/
structure MuxRegM where
  tree : Nat
  inlineFlag : Bool
  interseptors : MiddlewaresStack
  handlerInterseptors : MiddlewaresStack
  middlewares : MiddlewaresStack
  api : Bool
  apiExtensions : List String
  overrides : Bool
deriving DecidableEq, Repr

/-- Registration errors: a stack panic or the bad-pattern panic of `handle`. -/
inductive MuxError
  | stack (e : StackError)
  | badPattern (pattern : List Char)
deriving DecidableEq, Repr

/-- part_002 lines 505-527 (`With`): an inline child sharing the parent's
tree.  When the parent is itself inline its three stacks are copied;
otherwise the child starts from fresh empty stacks.  The supplied
middlewares are added through `Use`, i.e. `AddInterface(..., DUPLICATION_ABORT)`
on the middlewares stack.  The child's `api`, `ApiExtensions` and `overrides`
are zero values (the composite literal does not set them). -/
def muxWith (mx : MuxRegM) (mds : List Middleware) : Except MuxError MuxRegM :=
  match (if mx.inlineFlag then mx.middlewares.copy
      else newMiddlewaresStack "Middleware" true).add mds DUPLICATION_ABORT with
  | .error e => .error (.stack e)
  | .ok md2 =>
    .ok { tree := mx.tree, inlineFlag := true,
          interseptors := if mx.inlineFlag then mx.interseptors.copy
            else newMiddlewaresStack "Interseptors" false,
          handlerInterseptors := if mx.inlineFlag then mx.handlerInterseptors.copy
            else newMiddlewaresStack "HandlerInterseptors" false,
          middlewares := md2, api := false, apiExtensions := [], overrides := false }

/-- part_002 lines 719-721 (`chainHandler`): build both stacks and wrap the
handler in `Chain(interseptors.Items ++ middlewares.Items).Handler(h)`. -/
def muxChainHandler (mx : MuxRegM) (h : HandlerV) : Except MuxError HandlerV :=
  match mx.interseptors.build with
  | .error e => .error (.stack e)
  | .ok its =>
    match mx.middlewares.build with
    | .error e => .error (.stack e)
    | .ok mws => .ok (middlewaresHandler (its.items ++ mws.items) h)

/-- part_002 lines 742-769 (`handle`): reject patterns that do not start with
`/`; when the mux is inline, wrap the handler with the inline chain at
insertion time; insert at the API-extension variants when inside an `Api`
block, then at the pattern itself.  The insertions into the shared tree are
returned as a list of (method, pattern, handler) triples. -/
def muxHandle (mx : MuxRegM) (method : Nat) (pattern : List Char) (h : HandlerV) :
    Except MuxError (List (Nat × List Char × HandlerV)) :=
  if pattern.head? ≠ some '/' then .error (.badPattern pattern)
  else
    match (if mx.inlineFlag then muxChainHandler mx h else .ok h) with
    | .error e => .error e
    | .ok h' =>
      let apiIns :=
        if mx.api then
          if pattern = ['/'] then
            mx.apiExtensions.map (fun ext => (method, '/' :: '.' :: ext.data, h'))
          else
            mx.apiExtensions.map (fun ext => (method, pattern ++ '.' :: ext.data, h'))
        else []
      .ok (apiIns ++ [(method, pattern, h')])

/-! ## Correctness of the depth-first topological sort -/

/-- Targets of the edge list. -/
def targetsOf (edges : List (String × String)) : List String :=
  edges.map Prod.snd

/-- `out` is topologically consistent: wherever a node appears, all of its
successors appear strictly later in the list. -/
def TopoOut (edges : List (String × String)) (out : List String) : Prop :=
  ∀ l₁ u l₂, out = l₁ ++ u :: l₂ → ∀ v ∈ adjOf edges u, v ∈ l₂

theorem adjOf_mem {edges : List (String × String)} {u v : String} :
    v ∈ adjOf edges u ↔ (u, v) ∈ edges := by
  simp only [adjOf, List.mem_map, List.mem_filter, decide_eq_true_eq]
  constructor
  · rintro ⟨⟨a, b⟩, ⟨hab, h1⟩, h2⟩
    subst h1
    subst h2
    exact hab
  · intro h
    exact ⟨(u, v), ⟨h, rfl⟩, rfl⟩

theorem topoOut_nil {edges : List (String × String)} : TopoOut edges [] := by
  intro l₁ u l₂ h
  cases l₁ <;> simp at h

theorem topoOut_cons {edges : List (String × String)} {out : List String} {n : String}
    (h : TopoOut edges out) (hadj : ∀ v ∈ adjOf edges n, v ∈ out) :
    TopoOut edges (n :: out) := by
  intro l₁ u l₂ heq
  cases l₁ with
  | nil =>
    simp only [List.nil_append, List.cons.injEq] at heq
    obtain ⟨rfl, rfl⟩ := heq
    exact hadj
  | cons a l₁' =>
    simp only [List.cons_append, List.cons.injEq] at heq
    exact h l₁' u l₂ heq.2

/-- What a successful `dfsVisit` guarantees: the output extends the input by
fresh nodes (not previously emitted, not grey, each equal to `n` or an edge
target), contains `n`, and preserves topological consistency and
duplicate-freeness. -/
def VisitPost (edges : List (String × String)) (grey : List String) (n : String)
    (out out' : List String) : Prop :=
  (∃ d, out' = d ++ out ∧ ∀ x ∈ d, x ∉ out ∧ x ∉ grey ∧ (x = n ∨ x ∈ targetsOf edges)) ∧
  n ∈ out' ∧
  (TopoOut edges out → TopoOut edges out') ∧
  (out.Nodup → out'.Nodup)

/-- What a successful `dfsAll` guarantees, mutatis mutandis. -/
def AllPost (edges : List (String × String)) (grey : List String) (todo : List String)
    (out out' : List String) : Prop :=
  (∃ d, out' = d ++ out ∧ ∀ x ∈ d, x ∉ out ∧ x ∉ grey ∧ (x ∈ todo ∨ x ∈ targetsOf edges)) ∧
  (∀ v ∈ todo, v ∈ out') ∧
  (TopoOut edges out → TopoOut edges out') ∧
  (out.Nodup → out'.Nodup)

theorem allPost_of_visitPost (edges : List (String × String)) (fuel : Nat)
    (hv : ∀ grey n out out', dfsVisit edges fuel grey n out = .ok out' →
      VisitPost edges grey n out out') :
    ∀ todo grey out out', dfsAll edges fuel grey todo out = .ok out' →
      AllPost edges grey todo out out' := by
  intro todo
  induction todo with
  | nil =>
    intro grey out out' h
    unfold dfsAll at h
    cases h
    exact ⟨⟨[], by simp⟩, by simp, fun t => t, fun d => d⟩
  | cons v vs ihv =>
    intro grey out out' h
    unfold dfsAll at h
    cases hv0 : dfsVisit edges fuel grey v out with
    | error e => rw [hv0] at h; cases h
    | ok out2 =>
      rw [hv0] at h
      obtain ⟨⟨d1, hd1, hd1p⟩, hvin, htopo1, hnd1⟩ := hv grey v out out2 hv0
      obtain ⟨⟨d2, hd2, hd2p⟩, hvsin, htopo2, hnd2⟩ := ihv grey out2 out' h
      have hmono2 : ∀ x ∈ out2, x ∈ out' := by
        intro x hx; rw [hd2]; exact List.mem_append_right _ hx
      refine ⟨⟨d2 ++ d1, ?_, ?_⟩, ?_, fun t => htopo2 (htopo1 t), fun d => hnd2 (hnd1 d)⟩
      · rw [hd2, hd1, List.append_assoc]
      · intro x hx
        rcases List.mem_append.1 hx with hx2 | hx1
        · obtain ⟨hxo2, hxg, hxm⟩ := hd2p x hx2
          refine ⟨fun hxo => hxo2 ?_, hxg, ?_⟩
          · rw [hd1]; exact List.mem_append_right _ hxo
          · rcases hxm with hxt | hxt
            · exact .inl (List.mem_cons_of_mem _ hxt)
            · exact .inr hxt
        · obtain ⟨hxo, hxg, hxm⟩ := hd1p x hx1
          refine ⟨hxo, hxg, ?_⟩
          rcases hxm with rfl | hxt
          · exact .inl (List.mem_cons_self _ _)
          · exact .inr hxt
      · intro w hw
        rcases List.mem_cons.1 hw with rfl | hw'
        · exact hmono2 _ hvin
        · exact hvsin _ hw'

theorem visitPost_of_ok (edges : List (String × String)) :
    ∀ fuel grey n out out', dfsVisit edges fuel grey n out = .ok out' →
      VisitPost edges grey n out out' := by
  intro fuel
  induction fuel with
  | zero =>
    intro grey n out out' h
    unfold dfsVisit at h
    by_cases h1 : n ∈ out
    · simp only [h1, if_pos] at h
      cases h
      exact ⟨⟨[], by simp⟩, h1, fun t => t, fun d => d⟩
    · by_cases h2 : n ∈ grey <;> simp [h1, h2] at h
  | succ f ih =>
    have hAll := allPost_of_visitPost edges f ih
    intro grey n out out' h
    unfold dfsVisit at h
    by_cases h1 : n ∈ out
    · simp only [h1, if_pos] at h
      cases h
      exact ⟨⟨[], by simp⟩, h1, fun t => t, fun d => d⟩
    · by_cases h2 : n ∈ grey
      · simp [h1, h2] at h
      · simp only [h1, h2, if_neg, if_false, not_false_iff] at h
        cases hA : dfsAll edges f (n :: grey) (adjOf edges n) out with
        | error e => rw [hA] at h; cases h
        | ok out2 =>
          rw [hA] at h
          cases h
          obtain ⟨⟨d, hd, hdp⟩, hadj, htopo, hnd⟩ := hAll _ _ _ _ hA
          have hnd2 : n ∉ out2 := by
            rw [hd]
            intro hmem
            rcases List.mem_append.1 hmem with hin | hin
            · exact (hdp n hin).2.1 (List.mem_cons_self _ _)
            · exact h1 hin
          refine ⟨⟨n :: d, by simp [hd], ?_⟩, List.mem_cons_self _ _, ?_, ?_⟩
          · intro x hx
            rcases List.mem_cons.1 hx with rfl | hx'
            · exact ⟨h1, h2, .inl rfl⟩
            · obtain ⟨hxo, hxg, hxm⟩ := hdp x hx'
              refine ⟨hxo, fun hg => hxg (List.mem_cons_of_mem _ hg), .inr ?_⟩
              rcases hxm with hxa | hxt
              · exact List.mem_map.2 ⟨_, adjOf_mem.1 hxa, rfl⟩
              · exact hxt
          · intro t
            exact topoOut_cons (htopo t) hadj
          · intro d0
            exact List.nodup_cons.2 ⟨hnd2, hnd d0⟩

theorem allPost_of_ok (edges : List (String × String)) (fuel : Nat) :
    ∀ todo grey out out', dfsAll edges fuel grey todo out = .ok out' →
      AllPost edges grey todo out out' :=
  allPost_of_visitPost edges fuel (visitPost_of_ok edges fuel)

theorem nodup_subset_length {l₁ l₂ : List String} (d : l₁.Nodup) (h : l₁ ⊆ l₂) :
    l₁.length ≤ l₂.length :=
  (List.subperm_of_subset d h).length_le

theorem allOk_of_visitOk (edges : List (String × String)) (N ord : List String)
    (fuel : Nat)
    (hv : ∀ grey n out, grey.Nodup → (∀ g ∈ grey, g ∈ N) → n ∈ N →
      N.length + 1 ≤ fuel + grey.length →
      (∀ g ∈ grey, idxIn ord g < idxIn ord n) →
      ∃ out', dfsVisit edges fuel grey n out = .ok out') :
    ∀ todo grey out, grey.Nodup → (∀ g ∈ grey, g ∈ N) →
      (∀ v ∈ todo, v ∈ N) → N.length + 1 ≤ fuel + grey.length →
      (∀ v ∈ todo, ∀ g ∈ grey, idxIn ord g < idxIn ord v) →
      ∃ out', dfsAll edges fuel grey todo out = .ok out' := by
  intro todo
  induction todo with
  | nil =>
    intro grey out _ _ _ _ _
    exact ⟨out, by unfold dfsAll; rfl⟩
  | cons v vs ihv =>
    intro grey out hnd hgN htodoN hfuel hrank
    obtain ⟨out2, h2⟩ :=
      hv grey v out hnd hgN (htodoN v (List.mem_cons_self _ _)) hfuel
        (hrank v (List.mem_cons_self _ _))
    obtain ⟨out', h'⟩ :=
      ihv grey out2 hnd hgN (fun w hw => htodoN w (List.mem_cons_of_mem _ hw)) hfuel
        (fun w hw => hrank w (List.mem_cons_of_mem _ hw))
    exact ⟨out', by unfold dfsAll; rw [h2]; exact h'⟩

theorem visitOk (edges : List (String × String)) (N ord : List String)
    (hclosed : ∀ e ∈ edges, e.2 ∈ N)
    (hord : ∀ e ∈ edges, idxIn ord e.1 < idxIn ord e.2) :
    ∀ fuel grey n out, grey.Nodup → (∀ g ∈ grey, g ∈ N) → n ∈ N →
      N.length + 1 ≤ fuel + grey.length →
      (∀ g ∈ grey, idxIn ord g < idxIn ord n) →
      ∃ out', dfsVisit edges fuel grey n out = .ok out' := by
  intro fuel
  induction fuel with
  | zero =>
    intro grey n out hnd hgN _ hfuel _
    exfalso
    have := nodup_subset_length hnd (fun g hg => hgN g hg)
    omega
  | succ f ih =>
    intro grey n out hnd hgN hnN hfuel hbelow
    by_cases h1 : n ∈ out
    · exact ⟨out, by unfold dfsVisit; simp [h1]⟩
    · have h2 : n ∉ grey := fun hg => lt_irrefl _ (hbelow n hg)
      have hstep : ∃ out2, dfsAll edges f (n :: grey) (adjOf edges n) out = .ok out2 := by
        apply allOk_of_visitOk edges N ord f ih
        · exact List.nodup_cons.2 ⟨h2, hnd⟩
        · intro g hg
          rcases List.mem_cons.1 hg with rfl | hg'
          · exact hnN
          · exact hgN g hg'
        · intro w hw
          exact hclosed _ (adjOf_mem.1 hw)
        · simp only [List.length_cons]
          omega
        · intro w hw g hg
          rcases List.mem_cons.1 hg with rfl | hg'
          · exact hord _ (adjOf_mem.1 hw)
          · exact lt_trans (hbelow g hg') (hord _ (adjOf_mem.1 hw))
      obtain ⟨out2, hA⟩ := hstep
      refine ⟨n :: out2, ?_⟩
      unfold dfsVisit
      simp only [h1, h2, if_neg, if_false, not_false_iff]
      rw [hA]

theorem depthFirst_ok (edges : List (String × String)) (N ord : List String)
    (hclosed : ∀ e ∈ edges, e.2 ∈ N)
    (hord : ∀ e ∈ edges, idxIn ord e.1 < idxIn ord e.2) :
    ∃ names, depthFirst N edges = .ok names := by
  unfold depthFirst
  apply allOk_of_visitOk edges N ord (N.length + 1)
    (visitOk edges N ord hclosed hord (N.length + 1))
  · exact List.nodup_nil
  · intro g hg
    cases hg
  · exact fun v hv => hv
  · simp
  · intro v _ g hg
    cases hg

theorem idxIn_cons_ne (a x : String) (l : List String) (h : ¬ a = x) :
    idxIn (a :: l) x = idxIn l x + 1 := by
  simp [idxIn, h]

theorem idxIn_append (l₁ l₂ : List String) (x : String) (hx : x ∉ l₁) :
    idxIn (l₁ ++ l₂) x = l₁.length + idxIn l₂ x := by
  induction l₁ with
  | nil => simp
  | cons a l ih =>
    have hax : ¬ a = x := fun h => hx (h ▸ List.mem_cons_self a l)
    have hx' : x ∉ l := fun h => hx (List.mem_cons_of_mem _ h)
    rw [List.cons_append, idxIn_cons_ne _ _ _ hax, ih hx', List.length_cons]
    omega

/-- In a duplicate-free topologically consistent list, every edge whose source
occurs in the list goes from a smaller index to a larger one. -/
theorem before_of_topoOut {edges : List (String × String)} {names : List String}
    (ht : TopoOut edges names) (hnd : names.Nodup) {u v : String}
    (he : (u, v) ∈ edges) (hu : u ∈ names) :
    idxIn names u < idxIn names v := by
  obtain ⟨l₁, l₂, rfl⟩ := List.append_of_mem hu
  have hv2 : v ∈ l₂ := ht l₁ u l₂ rfl v (adjOf_mem.2 he)
  have hnodup := List.nodup_append.1 hnd
  have hul₁ : u ∉ l₁ := fun h => hnodup.2.2 h (List.mem_cons_self _ _)
  have hvl₁ : v ∉ l₁ := fun h => hnodup.2.2 h (List.mem_cons_of_mem _ hv2)
  have hvu : ¬ u = v := by
    intro h
    subst h
    exact (List.nodup_cons.1 hnodup.2.1).1 hv2
  rw [idxIn_append _ _ _ hul₁, idxIn_append _ _ _ hvl₁]
  have h1 : idxIn (u :: l₂) u = 0 := by simp [idxIn]
  have h2 : idxIn (u :: l₂) v = idxIn l₂ v + 1 := idxIn_cons_ne _ _ _ hvu
  omega

/-! ## The stack graph feeding the sort -/

/-- The names `Build` passes to the topological sorter, as a total function
(`[]` when the sorter fails; `buildFull` then errors out instead of using it). -/
def topoNames (s : MiddlewaresStack) : List String :=
  match depthFirst s.graphNodes s.graphEdges with
  | .ok names => names
  | .error _ => []

theorem lookup_isSome_mem {l : List (String × Middleware)} {n : String} :
    (l.lookup n).isSome = true ↔ n ∈ l.map Prod.fst := by
  induction l with
  | nil => simp [List.lookup]
  | cons p rest ih =>
    cases p with
    | mk k v =>
      by_cases h : n = k
      · subst h
        simp [List.lookup]
      · have hbe : (n == k) = false := beq_false_of_ne h
        simp [List.lookup, hbe, ih, h]

theorem keys_eq_graphNodes (s : MiddlewaresStack)
    (hnames : ∀ p ∈ s.byName, p.1 = p.2.name) :
    s.byName.map Prod.fst = s.graphNodes :=
  List.map_congr_left hnames

theorem has1_mem_graphNodes (s : MiddlewaresStack)
    (hnames : ∀ p ∈ s.byName, p.1 = p.2.name) (n : String)
    (h : s.has1 n = true) : n ∈ s.graphNodes := by
  rw [← keys_eq_graphNodes s hnames]
  exact lookup_isSome_mem.1 h

theorem graphEdges_ends (s : MiddlewaresStack)
    (hnames : ∀ p ∈ s.byName, p.1 = p.2.name) :
    ∀ e ∈ s.graphEdges, e.1 ∈ s.graphNodes ∧ e.2 ∈ s.graphNodes := by
  intro e he
  unfold MiddlewaresStack.graphEdges at he
  obtain ⟨p, hp, hpe⟩ := List.mem_flatMap.1 he
  have hpn : p.2.name ∈ s.graphNodes := List.mem_map.2 ⟨p, hp, rfl⟩
  rcases List.mem_append.1 hpe with hb | ha
  · obtain ⟨dst, hdst, rfl⟩ := List.mem_map.1 hb
    exact ⟨hpn, has1_mem_graphNodes s hnames dst (List.mem_filter.1 hdst).2⟩
  · obtain ⟨src, hsrc, rfl⟩ := List.mem_map.1 ha
    exact ⟨has1_mem_graphNodes s hnames src (List.mem_filter.1 hsrc).2, hpn⟩

theorem notFoundDeps_eq_nil (s : MiddlewaresStack)
    (hres : s.byName.all (fun p => (s.missingRefs p.2).isEmpty) = true) :
    s.notFoundDeps = [] := by
  unfold MiddlewaresStack.notFoundDeps
  have hf : s.byName.filter (fun p => decide (s.missingRefs p.2 ≠ [])) = [] := by
    rw [List.filter_eq_nil_iff]
    intro p hp
    have := List.all_eq_true.1 hres p hp
    simp only [List.isEmpty_iff] at this
    simp [this]
  rw [hf]
  rfl

/-! ## Invariants of stacks reachable through `Add` -/

theorem mapSet_length (m : List (String × Middleware)) (k : String) (v : Middleware) :
    (mapSet m k v).length ≤ m.length + 1 := by
  induction m with
  | nil => simp [mapSet]
  | cons p rest ih =>
    cases p with
    | mk k' v' =>
      by_cases h : k' = k
      · simp [mapSet, h]
      · simp only [mapSet, if_neg h, List.length_cons]
        omega

theorem addLoop_pres :
    ∀ (items : List Middleware) (s : MiddlewaresStack) (opt i : Nat)
      (s' : MiddlewaresStack), MiddlewaresStack.addLoop s items opt i = .ok s' →
      (s.items = [] → s'.items = []) ∧
      (s.byName.length ≤ s.len → s'.byName.length ≤ s'.len) := by
  intro items
  induction items with
  | nil =>
    intro s opt i s' h
    unfold MiddlewaresStack.addLoop at h
    cases h
    exact ⟨fun t => t, fun t => t⟩
  | cons md rest ih =>
    intro s opt i s' h
    unfold MiddlewaresStack.addLoop at h
    by_cases h1 : md.name = ""
    · rw [if_pos h1] at h
      by_cases h2 : s.acceptAnonymous = true
      · rw [if_pos h2] at h
        have := ih _ _ _ _ h
        refine ⟨fun t => this.1 (by simp [t]), fun t => this.2 (by simp; omega)⟩
      · rw [if_neg h2] at h
        cases h
    · rw [if_neg h1] at h
      by_cases h2 : s.has1 md.name = true
      · rw [if_pos h2] at h
        by_cases h3 : opt = DUPLICATION_ABORT
        · rw [if_pos h3] at h
          cases h
        · rw [if_neg h3] at h
          by_cases h4 : opt = DUPLICATION_SKIP
          · rw [if_pos h4] at h
            exact ih _ _ _ _ h
          · rw [if_neg h4] at h
            by_cases h5 : opt = DUPLICATION_OVERRIDE
            · rw [if_pos h5] at h
              have := ih _ _ _ _ h
              have hms := mapSet_length s.byName md.name md
              refine ⟨fun t => this.1 (by simp [t]), fun t => this.2 (by simp; omega)⟩
            · rw [if_neg h5] at h
              cases h
      · rw [if_neg h2] at h
        have := ih _ _ _ _ h
        have hms := mapSet_length s.byName md.name md
        refine ⟨fun t => this.1 (by simp [t]), fun t => this.2 (by simp; omega)⟩

theorem reachable_inv (s : MiddlewaresStack) (h : ReachableStack s) :
    s.items = [] ∧ s.byName.length ≤ s.len := by
  induction h with
  | new name acc => exact ⟨rfl, by simp [newMiddlewaresStack]⟩
  | add s items opt s' hr heq ih =>
    have := addLoop_pres items s opt 0 s' heq
    exact ⟨this.1 ih.1, this.2 ih.2⟩

/-- Decidable equality of `Except` results, so witnesses can be checked by
`decide`. -/
instance instDecEqExcept {ε α : Type} [DecidableEq ε] [DecidableEq α] :
    DecidableEq (Except ε α)
  | .error a, .error b =>
    if h : a = b then isTrue (by rw [h]) else isFalse (fun hc => by cases hc; exact h rfl)
  | .error _, .ok _ => isFalse (fun hc => by cases hc)
  | .ok _, .error _ => isFalse (fun hc => by cases hc)
  | .ok a, .ok b =>
    if h : a = b then isTrue (by rw [h]) else isFalse (fun hc => by cases hc; exact h rfl)

/-- The `Items` sequence a successful rebuild materializes
(middleware.go lines 215-225): the topologically sorted named middlewares
followed by the anonymous ones. -/
def builtItems (s : MiddlewaresStack) : List Middleware :=
  (topoNames s).filterMap (fun n => s.byName.lookup n) ++ s.anonymous

/-! ## Sample data used by witnesses and counterexamples -/

/-- Spec §8 scenario 4: named `auth` with `Before = ["log"]`. -/
def mdAuth : Middleware := ⟨"auth", 1, ["log"], []⟩

/-- Spec §8 scenario 4: named `log` with no constraints. -/
def mdLog : Middleware := ⟨"log", 2, [], []⟩

/-- Spec §8 scenario 4: an anonymous middleware. -/
def mdAnon : Middleware := ⟨"", 3, [], []⟩

/-- A middleware whose `Before` references the unregistered name `zz`. -/
def mdBadRef : Middleware := ⟨"a", 1, ["zz"], []⟩

/-- The stack obtained by adding `[mdAuth, mdLog, mdAnon]` to a fresh
anonymous-accepting stack. -/
def sampleStack : MiddlewaresStack :=
  ⟨"Middlewares", [("auth", mdAuth), ("log", mdLog)], [], [mdAnon], true, 3⟩

/-- `sampleStack` after a successful `Build`. -/
def sampleBuilt : MiddlewaresStack :=
  { sampleStack with items := [mdAuth, mdLog, mdAnon] }

/-- The stack obtained by adding `[mdBadRef]` to a fresh stack. -/
def sampleBadStack : MiddlewaresStack :=
  ⟨"M", [("a", mdBadRef)], [], [], true, 1⟩

/-! ## Claim theorems: the middleware stack -/

/-- C1: for every middleware stack (well-formed: map keys are unique and each
binding's key is the middleware's name) whose named middlewares have no
unresolved `Before`/`After` references, no cycles — witnessed by a ranking
`ord` that increases along every dependency edge; a finite digraph admits
such a ranking exactly when it is acyclic — and which is due for a rebuild,
`Build()` succeeds and materializes `Items` as the depth-first topological
order of the named middlewares (a permutation of the registered names in
which every edge `m→x` for `x ∈ m.Before` and `z→m` for `z ∈ m.After`,
restricted to registered names, goes left to right) followed by all anonymous
middlewares in their insertion order. -/
theorem build_toposort_c1 (s : MiddlewaresStack) (ord : List String)
    (hkeys : (s.byName.map Prod.fst).Nodup)
    (hnames : ∀ p ∈ s.byName, p.1 = p.2.name)
    (hres : s.byName.all (fun p => (s.missingRefs p.2).isEmpty) = true)
    (hord : ∀ e ∈ s.graphEdges, idxIn ord e.1 < idxIn ord e.2)
    (hguard : s.items.length ≠ s.len) :
    s.build = .ok { s with items := builtItems s } ∧
    (topoNames s).Perm s.graphNodes ∧
    s.graphEdges.all
      (fun e => decide (idxIn (topoNames s) e.1 < idxIn (topoNames s) e.2)) = true := by
  have hndN : s.graphNodes.Nodup := keys_eq_graphNodes s hnames ▸ hkeys
  have hclosed : ∀ e ∈ s.graphEdges, e.2 ∈ s.graphNodes :=
    fun e he => (graphEdges_ends s hnames e he).2
  obtain ⟨names, hdf⟩ := depthFirst_ok s.graphEdges s.graphNodes ord hclosed hord
  have htn : topoNames s = names := by unfold topoNames; rw [hdf]
  have hdf2 : dfsAll s.graphEdges (s.graphNodes.length + 1) [] s.graphNodes [] =
      .ok names := by
    unfold depthFirst at hdf
    exact hdf
  obtain ⟨⟨d, hd, hdp⟩, hNin, htopo, hndf⟩ := allPost_of_ok s.graphEdges _ _ _ _ _ hdf2
  rw [List.append_nil] at hd
  subst hd
  have hsubN : ∀ x ∈ names, x ∈ s.graphNodes := by
    intro x hx
    rcases (hdp x hx).2.2 with hx1 | hx2
    · exact hx1
    · obtain ⟨e, he, rfl⟩ := List.mem_map.1 hx2
      exact hclosed e he
  have hndnames : names.Nodup := hndf List.nodup_nil
  have htopoN : TopoOut s.graphEdges names := htopo topoOut_nil
  have hperm : names.Perm s.graphNodes :=
    (List.perm_ext_iff_of_nodup hndnames hndN).2
      (fun a => ⟨fun h => hsubN a h, fun h => hNin a h⟩)
  refine ⟨?_, htn ▸ hperm, ?_⟩
  · unfold MiddlewaresStack.build
    rw [if_neg hguard]
    unfold MiddlewaresStack.buildFull
    rw [if_neg (by simp [notFoundDeps_eq_nil s hres])]
    unfold builtItems
    rw [hdf, htn]
  · rw [htn]
    apply List.all_eq_true.2
    intro e he
    obtain ⟨u, v⟩ := e
    exact decide_eq_true
      (before_of_topoOut htopoN hndnames he
        (hNin _ (graphEdges_ends s hnames (u, v) he).1))

/-- Witness for C1 at spec §8 scenario 4 (`auth` before `log`, anonymous
trailing): the hypotheses hold and `Build` materializes
`[auth, log, anonymous]`. -/
theorem build_toposort_c1_witness :
    sampleStack.build = .ok { sampleStack with items := builtItems sampleStack } ∧
    (topoNames sampleStack).Perm sampleStack.graphNodes ∧
    sampleStack.graphEdges.all
      (fun e => decide (idxIn (topoNames sampleStack) e.1 <
        idxIn (topoNames sampleStack) e.2)) = true :=
  build_toposort_c1 sampleStack ["auth", "log"] (by decide) (by decide) (by decide)
    (by decide) (by decide)

/-- C2: for every middleware stack reachable through the registration API
that contains a named middleware with an unresolved `Before`/`After`
reference, `Build()` fails with the fatal dependency error: the constraint is
not dropped silently and no `Items` sequence is produced. -/
theorem build_unresolved_c2 (s : MiddlewaresStack) (p : String × Middleware)
    (hr : ReachableStack s) (hp : p ∈ s.byName) (hmiss : s.missingRefs p.2 ≠ []) :
    s.build = .error (.dependencyMissing s.name s.notFoundDeps) ∧
    s.notFoundDeps ≠ [] := by
  have hinv := reachable_inv s hr
  have hby : 0 < s.byName.length := List.length_pos.2 (List.ne_nil_of_mem hp)
  have hguard : s.items.length ≠ s.len := by
    rw [hinv.1]
    have := hinv.2
    simp only [List.length_nil]
    omega
  have hnfne : s.notFoundDeps ≠ [] := by
    unfold MiddlewaresStack.notFoundDeps
    intro hc
    rw [List.map_eq_nil_iff] at hc
    have : p ∈ s.byName.filter (fun q => decide (s.missingRefs q.2 ≠ [])) :=
      List.mem_filter.2 ⟨hp, decide_eq_true hmiss⟩
    rw [hc] at this
    cases this
  refine ⟨?_, hnfne⟩
  unfold MiddlewaresStack.build
  rw [if_neg hguard]
  unfold MiddlewaresStack.buildFull
  rw [if_pos hnfne]

/-- Witness for C2: the reachable stack holding only `mdBadRef` (whose
`Before` names the unregistered `zz`) makes `Build` fail. -/
theorem build_unresolved_c2_witness :
    sampleBadStack.build =
      .error (.dependencyMissing sampleBadStack.name sampleBadStack.notFoundDeps) ∧
    sampleBadStack.notFoundDeps ≠ [] :=
  build_unresolved_c2 sampleBadStack ("a", mdBadRef)
    (ReachableStack.add _ [mdBadRef] DUPLICATION_OVERRIDE _
      (ReachableStack.new "M" true) (by rfl))
    (by decide) (by decide)

/-- `buildFull` never reads the `Items` field, so overwriting `Items` does
not change its result. -/
theorem buildFull_items_irrel (s : MiddlewaresStack) (its : List Middleware) :
    MiddlewaresStack.buildFull { s with items := its } = s.buildFull := by
  unfold MiddlewaresStack.buildFull
  rfl

/-- C3: for every middleware stack on which `Build()` succeeded, a second
`Build()` with no `Add` in between returns the very same stack — in
particular `Items` is identical — and the code's rebuild guard is exactly
`len(Items) == Len`: when the guard held the first call already returned the
stack untouched, and when it did not the full rebuild ran. -/
theorem build_idempotent_c3 (s s' : MiddlewaresStack) (h : s.build = .ok s') :
    s'.build = .ok s' ∧
    (s.items.length = s.len → s' = s) ∧
    (s.items.length ≠ s.len → s.buildFull = .ok s') := by
  unfold MiddlewaresStack.build at h
  by_cases hg : s.items.length = s.len
  · rw [if_pos hg] at h
    cases h
    refine ⟨?_, fun _ => rfl, fun hc => absurd hg hc⟩
    unfold MiddlewaresStack.build
    rw [if_pos hg]
  · rw [if_neg hg] at h
    refine ⟨?_, fun hc => absurd hc hg, fun _ => h⟩
    unfold MiddlewaresStack.buildFull at h
    by_cases hnf : s.notFoundDeps ≠ []
    · rw [if_pos hnf] at h
      cases h
    · rw [if_neg hnf] at h
      cases hdf : depthFirst s.graphNodes s.graphEdges with
      | error e => rw [hdf] at h; cases h
      | ok names =>
        rw [hdf] at h
        cases h
        unfold MiddlewaresStack.build
        split
        · rfl
        · rw [buildFull_items_irrel]
          unfold MiddlewaresStack.buildFull
          rw [if_neg hnf, hdf]

/-- Witness for C3 at spec §8 scenario 4: rebuilding the already-built sample
stack returns it unchanged. -/
theorem build_idempotent_c3_witness :
    sampleBuilt.build = .ok sampleBuilt ∧
    (sampleStack.items.length = sampleStack.len → sampleBuilt = sampleStack) ∧
    (sampleStack.items.length ≠ sampleStack.len →
      sampleStack.buildFull = .ok sampleBuilt) :=
  build_idempotent_c3 sampleStack sampleBuilt (by
    simp [MiddlewaresStack.build, MiddlewaresStack.buildFull, sampleStack, sampleBuilt,
      MiddlewaresStack.notFoundDeps, MiddlewaresStack.missingRefs, MiddlewaresStack.has1,
      MiddlewaresStack.graphNodes, MiddlewaresStack.graphEdges, depthFirst, dfsAll, dfsVisit,
      adjOf, mdAuth, mdLog, mdAnon, List.lookup])

/-! ## Claim theorems: the chain runner -/

/-- C4: for every invocation of `ChainHandler.Next`, whatever overrides were
installed from `values` and whatever the invoked middlewares and endpoint
changed, the `(Writer, request, Context)` triple observed after `Next`
returns equals the triple at entry: the snapshot of lines 73-76 is restored
by the deferred assignment. -/
theorem next_restores_triple_c4 (settersOf : ChainSetters)
    (mws : List (ChainState → ChainState)) (fuel : Nat) (values : List NextValue)
    (st st' : ChainState) (tr : List ChainEvent)
    (h : chainNext settersOf mws fuel values st = some (st', tr)) :
    st'.writer = st.writer ∧ st'.request = st.request ∧ st'.context = st.context := by
  unfold chainNext at h
  cases hl : chainLoop mws fuel (values.foldl (applyValue settersOf) st) with
  | none => rw [hl] at h; cases h
  | some p =>
    obtain ⟨p1, p2⟩ := p
    rw [hl] at h
    cases h
    exact ⟨rfl, rfl, rfl⟩

/-- Witness for C4: a concrete two-middleware run (the first one passes, the
second overrides the writer) still ends with the entry triple. -/
theorem next_restores_triple_c4_witness :
    ChainState.writer ⟨2, .given 4, ⟨5, 6⟩, 7, false⟩ =
        (⟨0, .given 4, ⟨5, 6⟩, 7, false⟩ : ChainState).writer ∧
    ChainState.request ⟨2, .given 4, ⟨5, 6⟩, 7, false⟩ =
        (⟨0, .given 4, ⟨5, 6⟩, 7, false⟩ : ChainState).request ∧
    ChainState.context ⟨2, .given 4, ⟨5, 6⟩, 7, false⟩ =
        (⟨0, .given 4, ⟨5, 6⟩, 7, false⟩ : ChainState).context :=
  next_restores_triple_c4 (fun _ => [])
    [passMiddleware, fun s => { s with writer := .wrapped 9 }] 4 []
    ⟨0, .given 4, ⟨5, 6⟩, 7, false⟩ ⟨2, .given 4, ⟨5, 6⟩, 7, false⟩
    [.slot 0, .slot 1] (by decide)

/-- C5 counterexample: in a two-middleware chain whose slot 0 only calls
`Pass()` and returns, the trace is `[slot 0, slot 1]`: slot 0 runs exactly
once, refuting "slot i is executed again" — the loop increments `Index`
before invoking a middleware, so re-entry continues at slot 1. -/
theorem pass_counterexample_c5 :
    (chainLoop [passMiddleware, fun s => s] 10
        ⟨0, .given 0, ⟨0, 0⟩, 0, false⟩).map Prod.snd =
      some [ChainEvent.slot 0, ChainEvent.slot 1] ∧
    [ChainEvent.slot 0, ChainEvent.slot 1].count (ChainEvent.slot 0) = 1 := by
  decide

theorem chainStep_flag_snd (mws : List (ChainState → ChainState)) (st : ChainState)
    (hle : st.index ≤ mws.length) :
    (chainStep mws st).2 =
      [if st.index < mws.length then ChainEvent.slot st.index else ChainEvent.endpoint] := by
  unfold chainStep
  by_cases h1 : st.index < mws.length
  · simp [h1]
  · have h2 : st.index = mws.length := by omega
    simp [h1, h2]

theorem chainLoop_succ_trace (mws : List (ChainState → ChainState)) (f : Nat)
    (st st2 : ChainState) (tr : List ChainEvent)
    (h : chainLoop mws (f + 1) st = some (st2, tr)) :
    ∃ tr2, tr = (chainStep mws st).2 ++ tr2 := by
  unfold chainLoop at h
  by_cases hf : (chainStep mws st).1.nextFlag
  · rw [if_pos hf] at h
    cases hrec : chainLoop mws f { (chainStep mws st).1 with nextFlag := false } with
    | none => rw [hrec] at h; cases h
    | some q =>
      obtain ⟨q1, q2⟩ := q
      rw [hrec] at h
      cases h
      exact ⟨q2, rfl⟩
  · rw [if_neg hf] at h
    cases h
    exact ⟨[], (List.append_nil _).symm⟩

/-- C5 (amended): when the middleware at slot `i` calls `Pass()` and returns,
the loop re-enters without itself modifying the index; since the index was
already advanced to `i + 1` before the middleware ran, the chain continues
exactly as a fresh loop from slot `i + 1` with the flag cleared — the next
event is slot `i + 1` (or the endpoint when `i` was the last slot), slot `i`
is not re-executed, and no slot is skipped or re-ordered. -/
theorem pass_reentry_c5 (mws : List (ChainState → ChainState)) (st st2 : ChainState)
    (tr : List ChainEvent) (f i : Nat) (hst : st.index = i) (hi : i < mws.length)
    (hpass : mws.get ⟨i, hi⟩ = passMiddleware)
    (hcont : chainLoop mws (f + 1) { st with index := i + 1, nextFlag := false } =
      some (st2, tr)) :
    chainLoop mws (f + 2) st = some (st2, ChainEvent.slot i :: tr) ∧
    tr.head? = some (if i + 1 < mws.length then ChainEvent.slot (i + 1)
      else ChainEvent.endpoint) := by
  have hstep1 : chainStep mws st = ({ st with index := i + 1, nextFlag := true }, [.slot i]) := by
    unfold chainStep
    simp only [hst, hi, dif_pos, hpass, passMiddleware]
  constructor
  · unfold chainLoop
    rw [hstep1]
    simp only [if_true]
    rw [hcont]
    rfl
  · obtain ⟨tr2, htr⟩ := chainLoop_succ_trace mws f _ st2 tr hcont
    rw [htr, chainStep_flag_snd mws _ (by simp; omega)]
    simp

/-- C5 witness: at the concrete two-middleware chain of the counterexample,
the amended statement is exercised end to end. -/
theorem pass_reentry_c5_witness :
    chainLoop [passMiddleware, fun s => s] 10 ⟨0, .given 0, ⟨0, 0⟩, 0, false⟩ =
      some (⟨2, .given 0, ⟨0, 0⟩, 0, false⟩, ChainEvent.slot 0 :: [ChainEvent.slot 1]) ∧
    [ChainEvent.slot 1].head? =
      some (if 0 + 1 < ([passMiddleware, fun s => s] :
        List (ChainState → ChainState)).length then ChainEvent.slot (0 + 1)
        else ChainEvent.endpoint) :=
  pass_reentry_c5 [passMiddleware, fun s => s] ⟨0, .given 0, ⟨0, 0⟩, 0, false⟩
    ⟨2, .given 0, ⟨0, 0⟩, 0, false⟩ [ChainEvent.slot 1] 8 0 rfl (by decide) rfl
    (by decide)

/-- The override-installation fold leaves the `next` flag untouched when no
supplied value replaces the request (only request replacement runs the
context's chain request setters). -/
theorem foldl_applyValue_nextFlag (settersOf : ChainSetters) :
    ∀ (values : List NextValue) (st : ChainState),
      values.all (fun v => !v.replacesRequest) = true →
      (values.foldl (applyValue settersOf) st).nextFlag = st.nextFlag := by
  intro values
  induction values with
  | nil => intro st _; rfl
  | cons v vs ih =>
    intro st hnr
    rw [List.all_cons, Bool.and_eq_true] at hnr
    rw [List.foldl_cons, ih _ hnr.2]
    cases v with
    | request r => simp [NextValue.replacesRequest] at hnr
    | goContext g => simp [NextValue.replacesRequest] at hnr
    | writerWithStatus i => rfl
    | writer i => rfl
    | routeContext c => rfl

/-- C10 counterexample: a `ChainRequestSetter` that calls `Pass()` on the
chain makes `Next([newRequest])` return with the flag set even though it was
clear at entry — the code restores `oldNext`, which is read only after the
override installation ran the setters, not the entry value. -/
theorem next_flag_counterexample_c10 :
    (chainNext (fun _ => [fun s _ => { s with nextFlag := true }]) [] 10
        [NextValue.request ⟨9, 9⟩] ⟨0, .given 0, ⟨0, 0⟩, 0, false⟩).map
        (fun p => p.1.nextFlag) = some true ∧
    (⟨0, .given 0, ⟨0, 0⟩, 0, false⟩ : ChainState).nextFlag = false := by
  decide

/-- C10 (amended): every `Next` invocation restores the re-entry flag to the
`oldNext` snapshot taken right after the overrides were installed; whenever
no supplied value replaces the request — in particular for every plain
nested `Next()` — that snapshot equals the entry value, so a `Pass()` pending
in an outer `Next` is never consumed or cancelled by such a nested call. -/
theorem next_restores_flag_c10 (settersOf : ChainSetters)
    (mws : List (ChainState → ChainState)) (fuel : Nat) (values : List NextValue)
    (st st' : ChainState) (tr : List ChainEvent)
    (h : chainNext settersOf mws fuel values st = some (st', tr)) :
    st'.nextFlag = (values.foldl (applyValue settersOf) st).nextFlag ∧
    (values.all (fun v => !v.replacesRequest) = true → st'.nextFlag = st.nextFlag) := by
  unfold chainNext at h
  cases hl : chainLoop mws fuel (values.foldl (applyValue settersOf) st) with
  | none => rw [hl] at h; cases h
  | some p =>
    obtain ⟨p1, p2⟩ := p
    rw [hl] at h
    cases h
    exact ⟨rfl, fun hnr => foldl_applyValue_nextFlag settersOf values st hnr⟩

/-- C10 witness: a values-free nested `Next` over an empty chain preserves
the (set) re-entry flag. -/
theorem next_restores_flag_c10_witness :
    ChainState.nextFlag ⟨1, .given 0, ⟨0, 0⟩, 0, true⟩ =
      (([] : List NextValue).foldl (applyValue (fun _ => []))
        ⟨0, .given 0, ⟨0, 0⟩, 0, true⟩).nextFlag ∧
    (([] : List NextValue).all (fun v => !v.replacesRequest) = true →
      ChainState.nextFlag ⟨1, .given 0, ⟨0, 0⟩, 0, true⟩ =
        (⟨0, .given 0, ⟨0, 0⟩, 0, true⟩ : ChainState).nextFlag) :=
  next_restores_flag_c10 (fun _ => []) [] 3 [] ⟨0, .given 0, ⟨0, 0⟩, 0, true⟩
    ⟨1, .given 0, ⟨0, 0⟩, 0, true⟩ [.endpoint] (by decide)

/-! ## Claim theorems: the routing context -/

/-- C8 counterexample: a context whose `ApiExt` was set during routing is not
returned to the fresh state by `Reset()` — `Reset` leaves `ApiExt` (as well
as `DefaultValueKey`, `Handler`, `RouterStack` and `Log`) untouched, so
route-local state from a previous request stays observable. -/
theorem reset_counterexample_c8 :
    RouteContextM.reset { newRouteContext with apiExt := "json" } ≠ newRouteContext := by
  decide

/-- C8 (amended): `Reset()` returns every field it assigns to the value a
fresh `NewRouteContext()` has, but preserves the current `DefaultValueKey`,
`Handler`, `RouterStack`, `Log` and `ApiExt`. -/
theorem reset_amended_c8 (x : RouteContextM) :
    x.reset = { newRouteContext with
      defaultValueKey := x.defaultValueKey, handler := x.handler,
      routerStack := x.routerStack, log := x.log, apiExt := x.apiExt } := rfl

/-! ## Claim theorems: dispatch -/

theorem apiRetryLoop_miss {H : Type} (fr : FindRouteFn H)
    (hmiss : ∀ rc m p, (fr rc m p).2 = none) (m : Nat) :
    ∀ (exts : List (List Char)) (rc : DispatchCtx) (path : List Char),
      (apiRetryLoop fr m exts rc path).2.2 = none := by
  intro exts
  induction exts with
  | nil => intro rc path; rfl
  | cons ext rest ih =>
    intro rc path
    cases hli : lastIndex path ('.' :: ext) with
    | none => simp only [apiRetryLoop, hli]; exact ih rc path
    | some pos =>
      rcases hfr : fr rc m (path.take pos ++ '/' :: '.' :: ext) with ⟨rc1, ho⟩
      have h2 := hmiss rc m (path.take pos ++ '/' :: '.' :: ext)
      rw [hfr] at h2
      cases ho with
      | some hh => simp at h2
      | none =>
        simp only [apiRetryLoop, hli, hfr]
        exact ih _ _

/-- C6: for every dispatched request whose path finds no handler in the tree,
including after the API-extension retries (`hmiss`), and whose method is
supported: if the searches left the context's `methodNotAllowed` hint set,
`routeHTTP` invokes the MethodNotAllowed handler, otherwise the NotFound
handler; and the default MethodNotAllowed handler writes status 405 with an
empty body (one nil write). -/
theorem route_miss_c6 {H : Type} (fr : FindRouteFn H)
    (hmiss : ∀ rc m p, (fr rc m p).2 = none)
    (exts : List (List Char)) (reqMethod reqRawPath reqPath : List Char)
    (rctx0 : DispatchCtx)
    (hm : (methodMap (effectiveCtx rctx0 reqMethod).routeMethod).isSome = true) :
    (routeHTTPM fr exts reqMethod reqRawPath reqPath rctx0).outcome =
      (if (routeHTTPM fr exts reqMethod reqRawPath reqPath rctx0).rctx.methodNotAllowed
        then Dispatched.methodNotAllowed else Dispatched.notFound) ∧
    methodNotAllowedHandlerM ⟨none, []⟩ = ⟨some 405, [[]]⟩ ∧
    ([[]] : List (List Char)).flatten = [] := by
  refine ⟨?_, rfl, rfl⟩
  cases hmm2 : methodMap (effectiveCtx rctx0 reqMethod).routeMethod with
  | none => rw [hmm2] at hm; cases hm
  | some m =>
    rcases hfr : fr (effectiveCtx rctx0 reqMethod) m
        (effectivePath rctx0.routePath reqRawPath reqPath) with ⟨rc1, ho⟩
    have h2 := hmiss (effectiveCtx rctx0 reqMethod) m
      (effectivePath rctx0.routePath reqRawPath reqPath)
    rw [hfr] at h2
    cases ho with
    | some hh => simp at h2
    | none =>
      rcases hloop : apiRetryLoop fr m exts rc1
          (effectivePath rctx0.routePath reqRawPath reqPath) with ⟨rc2, att, o2⟩
      have h3 := apiRetryLoop_miss fr hmiss m exts rc1
        (effectivePath rctx0.routePath reqRawPath reqPath)
      rw [hloop] at h3
      cases o2 with
      | some hh => simp at h3
      | none => simp only [routeHTTPM, hmm2, hfr, hloop]

/-- C6 witness: a search that never finds anything, with method GET, yields
the NotFound outcome (the hint is clear), and the default MethodNotAllowed
handler writes 405 with an empty body. -/
theorem route_miss_c6_witness :
    (routeHTTPM (fun rc _ _ => (rc, (none : Option Nat))) ["json".data]
        "GET".data [] "/a".data ⟨[], [], false, []⟩).outcome =
      (if (routeHTTPM (fun rc _ _ => (rc, (none : Option Nat))) ["json".data]
          "GET".data [] "/a".data ⟨[], [], false, []⟩).rctx.methodNotAllowed
        then Dispatched.methodNotAllowed else Dispatched.notFound) ∧
    methodNotAllowedHandlerM ⟨none, []⟩ = ⟨some 405, [[]]⟩ ∧
    ([[]] : List (List Char)).flatten = [] :=
  route_miss_c6 (fun rc _ _ => (rc, none)) (fun _ _ _ => rfl) ["json".data]
    "GET".data [] "/a".data ⟨[], [], false, []⟩ (by decide)

/-- A tree search standing in for the missing tree source: it only knows the
rewritten path `/x/.json`. -/
def frApiSample : FindRouteFn Nat :=
  fun rc _ p => (rc, if p = "/x/.json".data then some 1 else none)

/-- C7 counterexample: the route path `/x.jsonp` does not end with `.json`,
yet `routeHTTP` attempts the rewrite-and-retry (the code uses
`strings.LastIndex`, a substring search, not a suffix test), retries with
`/x/.json` and dispatches the hit with `ApiExt = "json"` — refuting "paths
not ending in \x22.\x22+ext are not rewritten". -/
theorem api_rewrite_counterexample_c7 :
    (routeHTTPM frApiSample ["json".data] "GET".data [] "/x.jsonp".data
        ⟨[], [], false, []⟩).outcome = Dispatched.apiHit "json".data 1 ∧
    (routeHTTPM frApiSample ["json".data] "GET".data [] "/x.jsonp".data
        ⟨[], [], false, []⟩).attempts = [("json".data, "/x/.json".data)] ∧
    endsWith "/x.jsonp".data ('.' :: "json".data) = false := by
  decide

/-- C7 (amended): for a single configured extension `ext`, when the initial
tree search fails the rewrite-and-retry is attempted exactly when
`"." + ext` occurs as a substring of the route path; the retried path is the
prefix before the last occurrence followed by `"/." + ext`, searched with the
same method; on a successful retry `rctx.ApiExt` is set to `ext` before
dispatching, and when the retry also misses the loop falls through to the
MethodNotAllowed/NotFound decision. -/
theorem api_rewrite_c7 {H : Type} (fr : FindRouteFn H) (ext : List Char)
    (reqMethod reqRawPath reqPath : List Char) (rctx : DispatchCtx) (m : Nat)
    (p : List Char) (pos : Nat) (hfound : H)
    (hpath : rctx.routePath = p) (hpne : p ≠ [])
    (hmne : rctx.routeMethod ≠ []) (hmm2 : methodMap rctx.routeMethod = some m)
    (hmiss0 : (fr rctx m p).2 = none) :
    (lastIndex p ('.' :: ext) = none →
      routeHTTPM fr [ext] reqMethod reqRawPath reqPath rctx =
        ⟨(fr rctx m p).1,
          if (fr rctx m p).1.methodNotAllowed then Dispatched.methodNotAllowed
            else Dispatched.notFound, []⟩) ∧
    (lastIndex p ('.' :: ext) = some pos →
      ((fr (fr rctx m p).1 m (p.take pos ++ '/' :: '.' :: ext)).2 = some hfound →
        routeHTTPM fr [ext] reqMethod reqRawPath reqPath rctx =
          ⟨{ (fr (fr rctx m p).1 m (p.take pos ++ '/' :: '.' :: ext)).1 with
              apiExt := ext },
            Dispatched.apiHit ext hfound,
            [(ext, p.take pos ++ '/' :: '.' :: ext)]⟩) ∧
      ((fr (fr rctx m p).1 m (p.take pos ++ '/' :: '.' :: ext)).2 = none →
        routeHTTPM fr [ext] reqMethod reqRawPath reqPath rctx =
          ⟨(fr (fr rctx m p).1 m (p.take pos ++ '/' :: '.' :: ext)).1,
            if (fr (fr rctx m p).1 m
                (p.take pos ++ '/' :: '.' :: ext)).1.methodNotAllowed
              then Dispatched.methodNotAllowed else Dispatched.notFound,
            [(ext, p.take pos ++ '/' :: '.' :: ext)]⟩)) := by
  have hctx : effectiveCtx rctx reqMethod = rctx := by
    unfold effectiveCtx
    rw [if_neg hmne]
  have heff : effectivePath rctx.routePath reqRawPath reqPath = p := by
    unfold effectivePath
    rw [hpath, if_pos hpne]
  rcases hfr0 : fr rctx m p with ⟨rc1, ho⟩
  rw [hfr0] at hmiss0
  cases ho with
  | some hh => simp at hmiss0
  | none =>
    refine ⟨?_, ?_⟩
    · intro hli
      simp only [routeHTTPM, hctx, heff, hmm2, hfr0, apiRetryLoop, hli]
    · intro hli
      rcases hfr1 : fr rc1 m (p.take pos ++ '/' :: '.' :: ext) with ⟨rc2, ho2⟩
      constructor
      · intro hhit
        cases ho2 with
        | none => simp at hhit
        | some hh2 =>
          have hh2e : hh2 = hfound := by simpa using hhit
          subst hh2e
          simp only [routeHTTPM, hctx, heff, hmm2, hfr0, apiRetryLoop, hli, hfr1]
      · intro hmiss1
        cases ho2 with
        | some hh2 => simp at hmiss1
        | none =>
          simp only [routeHTTPM, hctx, heff, hmm2, hfr0, apiRetryLoop, hli, hfr1]

/-- C7 witness: at path `/x.json`, extension `json`, the last occurrence of
`.json` is at index 2, the retried path is `/x/.json`, the sample search hits
it, and the result dispatches the hit with `ApiExt = "json"`. -/
theorem api_rewrite_c7_witness :
    (lastIndex "/x.json".data ('.' :: "json".data) = none →
      routeHTTPM frApiSample ["json".data] [] [] []
          ⟨"/x.json".data, "GET".data, false, []⟩ =
        ⟨(frApiSample ⟨"/x.json".data, "GET".data, false, []⟩ 4 "/x.json".data).1,
          if (frApiSample ⟨"/x.json".data, "GET".data, false, []⟩ 4
              "/x.json".data).1.methodNotAllowed
            then Dispatched.methodNotAllowed else Dispatched.notFound, []⟩) ∧
    (lastIndex "/x.json".data ('.' :: "json".data) = some 2 →
      ((frApiSample (frApiSample ⟨"/x.json".data, "GET".data, false, []⟩ 4
            "/x.json".data).1 4
          ("/x.json".data.take 2 ++ '/' :: '.' :: "json".data)).2 = some 1 →
        routeHTTPM frApiSample ["json".data] [] [] []
            ⟨"/x.json".data, "GET".data, false, []⟩ =
          ⟨{ (frApiSample (frApiSample ⟨"/x.json".data, "GET".data, false, []⟩ 4
                "/x.json".data).1 4
              ("/x.json".data.take 2 ++ '/' :: '.' :: "json".data)).1 with
              apiExt := "json".data },
            Dispatched.apiHit "json".data 1,
            [("json".data, "/x.json".data.take 2 ++ '/' :: '.' :: "json".data)]⟩) ∧
      ((frApiSample (frApiSample ⟨"/x.json".data, "GET".data, false, []⟩ 4
            "/x.json".data).1 4
          ("/x.json".data.take 2 ++ '/' :: '.' :: "json".data)).2 = none →
        routeHTTPM frApiSample ["json".data] [] [] []
            ⟨"/x.json".data, "GET".data, false, []⟩ =
          ⟨(frApiSample (frApiSample ⟨"/x.json".data, "GET".data, false, []⟩ 4
              "/x.json".data).1 4
              ("/x.json".data.take 2 ++ '/' :: '.' :: "json".data)).1,
            if (frApiSample (frApiSample ⟨"/x.json".data, "GET".data, false, []⟩ 4
                "/x.json".data).1 4
                ("/x.json".data.take 2 ++ '/' :: '.' :: "json".data)).1.methodNotAllowed
              then Dispatched.methodNotAllowed else Dispatched.notFound,
            [("json".data, "/x.json".data.take 2 ++ '/' :: '.' :: "json".data)]⟩)) :=
  api_rewrite_c7 frApiSample "json".data [] [] []
    ⟨"/x.json".data, "GET".data, false, []⟩ 4 "/x.json".data 2 1 rfl (by decide)
    (by decide) (by decide) (by decide)

/-! ## Claim theorems: inline routers -/

/-- A non-inline router whose middlewares stack already holds named
middlewares (and whose tree is token 7). -/
def mxPlain : MuxRegM :=
  { tree := 7, inlineFlag := false,
    interseptors := newMiddlewaresStack "Interseptors" false,
    handlerInterseptors := newMiddlewaresStack "HandlerInterseptors" false,
    middlewares := sampleStack, api := false, apiExtensions := [],
    overrides := false }

/-- C9 counterexample: on a non-inline parent whose stacks are non-empty,
`With()` (here with no extra middlewares) returns a child with fresh empty
stacks, not copies of the parent's stacks — the copy only happens when the
parent is itself inline. -/
theorem with_counterexample_c9 :
    muxWith mxPlain [] =
      .ok ⟨7, true, newMiddlewaresStack "Interseptors" false,
        newMiddlewaresStack "HandlerInterseptors" false,
        newMiddlewaresStack "Middleware" true, false, [], false⟩ ∧
    newMiddlewaresStack "Middleware" true ≠ mxPlain.middlewares.copy := by
  decide

/-- C9 (amended): `With(middlewares...)` returns an inline child that shares
`mx`'s pattern tree; its three middleware stacks are copies of `mx`'s stacks
when `mx` is itself inline and fresh empty stacks otherwise, with the given
middlewares added to the middlewares stack (duplicate names abort); and a
handler registered on the child through `handle` is wrapped by the child's
interceptor+middleware chain at insertion time, the wrapped handler being the
only insertion into the shared tree. -/
theorem with_inline_c9 (mx im : MuxRegM) (mds : List Middleware)
    (method : Nat) (pattern : List Char) (hv hwv : HandlerV)
    (h : muxWith mx mds = .ok im)
    (hpat : pattern.head? = some '/')
    (hw : muxChainHandler im hv = .ok hwv) :
    im.inlineFlag = true ∧ im.tree = mx.tree ∧
    (mx.inlineFlag = true →
      mx.middlewares.copy.add mds DUPLICATION_ABORT = .ok im.middlewares ∧
      im.interseptors = mx.interseptors.copy ∧
      im.handlerInterseptors = mx.handlerInterseptors.copy) ∧
    (mx.inlineFlag = false →
      (newMiddlewaresStack "Middleware" true).add mds DUPLICATION_ABORT =
        .ok im.middlewares ∧
      im.interseptors = newMiddlewaresStack "Interseptors" false ∧
      im.handlerInterseptors = newMiddlewaresStack "HandlerInterseptors" false) ∧
    muxHandle im method pattern hv = .ok [(method, pattern, hwv)] := by
  cases hadd : (if mx.inlineFlag then mx.middlewares.copy
      else newMiddlewaresStack "Middleware" true).add mds DUPLICATION_ABORT with
  | error e =>
    unfold muxWith at h
    rw [hadd] at h
    cases h
  | ok md2 =>
    unfold muxWith at h
    rw [hadd] at h
    have him := Except.ok.inj h
    subst him
    refine ⟨rfl, rfl, ?_, ?_, ?_⟩
    · intro hin
      rw [hin] at hadd
      rw [if_pos rfl] at hadd
      exact ⟨hadd, by simp [hin], by simp [hin]⟩
    · intro hin
      rw [hin] at hadd
      rw [if_neg (by simp)] at hadd
      exact ⟨hadd, by simp [hin], by simp [hin]⟩
    · unfold muxHandle
      rw [if_neg (by simp [hpat])]
      simp [hw]

/-- C9 witness: `With()` on the non-inline sample parent, then registering a
plain handler at `/p` on the child: the child is inline with fresh stacks
and the single insertion carries the (empty-chain) wrapped handler. -/
theorem with_inline_c9_witness :
    MuxRegM.inlineFlag ⟨7, true, newMiddlewaresStack "Interseptors" false,
        newMiddlewaresStack "HandlerInterseptors" false,
        newMiddlewaresStack "Middleware" true, false, [], false⟩ = true ∧
    MuxRegM.tree ⟨7, true, newMiddlewaresStack "Interseptors" false,
        newMiddlewaresStack "HandlerInterseptors" false,
        newMiddlewaresStack "Middleware" true, false, [], false⟩ = mxPlain.tree ∧
    (mxPlain.inlineFlag = true →
      mxPlain.middlewares.copy.add [] DUPLICATION_ABORT =
        .ok (MuxRegM.middlewares ⟨7, true, newMiddlewaresStack "Interseptors" false,
          newMiddlewaresStack "HandlerInterseptors" false,
          newMiddlewaresStack "Middleware" true, false, [], false⟩) ∧
      MuxRegM.interseptors ⟨7, true, newMiddlewaresStack "Interseptors" false,
          newMiddlewaresStack "HandlerInterseptors" false,
          newMiddlewaresStack "Middleware" true, false, [], false⟩ =
        mxPlain.interseptors.copy ∧
      MuxRegM.handlerInterseptors ⟨7, true, newMiddlewaresStack "Interseptors" false,
          newMiddlewaresStack "HandlerInterseptors" false,
          newMiddlewaresStack "Middleware" true, false, [], false⟩ =
        mxPlain.handlerInterseptors.copy) ∧
    (mxPlain.inlineFlag = false →
      (newMiddlewaresStack "Middleware" true).add [] DUPLICATION_ABORT =
        .ok (MuxRegM.middlewares ⟨7, true, newMiddlewaresStack "Interseptors" false,
          newMiddlewaresStack "HandlerInterseptors" false,
          newMiddlewaresStack "Middleware" true, false, [], false⟩) ∧
      MuxRegM.interseptors ⟨7, true, newMiddlewaresStack "Interseptors" false,
          newMiddlewaresStack "HandlerInterseptors" false,
          newMiddlewaresStack "Middleware" true, false, [], false⟩ =
        newMiddlewaresStack "Interseptors" false ∧
      MuxRegM.handlerInterseptors ⟨7, true, newMiddlewaresStack "Interseptors" false,
          newMiddlewaresStack "HandlerInterseptors" false,
          newMiddlewaresStack "Middleware" true, false, [], false⟩ =
        newMiddlewaresStack "HandlerInterseptors" false) ∧
    muxHandle ⟨7, true, newMiddlewaresStack "Interseptors" false,
        newMiddlewaresStack "HandlerInterseptors" false,
        newMiddlewaresStack "Middleware" true, false, [], false⟩ 4 "/p".data
        (.base 0) = .ok [(4, "/p".data, .base 0)] :=
  with_inline_c9 mxPlain
    ⟨7, true, newMiddlewaresStack "Interseptors" false,
      newMiddlewaresStack "HandlerInterseptors" false,
      newMiddlewaresStack "Middleware" true, false, [], false⟩ [] 4 "/p".data
    (.base 0) (.base 0) (by decide) (by decide) (by decide)

end XRoute
